import Mathlib

/-!
Verification development for the Immich backup/recovery tool
(`immich_backup_tool.py`).  The Python source is shallowly embedded:
pure string/dict manipulation becomes Lean functions, the filesystem
is a finite tree of named entries, external commands are oracles, and
each orchestration routine returns an explicit event trace together
with an `Except` value modelling the raised exception (if any).
-/

namespace Immich

/-! ## Python string primitives -/

/-- Whitespace characters removed by Python `str.strip()`. -/
def pyIsSpace (c : Char) : Bool :=
  c == ' ' || c == '\t' || c == '\n' || c == '\r' || c == Char.ofNat 11 || c == Char.ofNat 12

/-- Python `str.strip()`: drop leading and trailing whitespace. -/
def pyStrip (s : String) : String :=
  String.mk (((s.data.dropWhile pyIsSpace).reverse.dropWhile pyIsSpace).reverse)

/-- `pyStartsWithL p l` is true when `p` is an initial segment of `l`
(Python `str.startswith`, on character lists). -/
def pyStartsWithL : List Char → List Char → Bool
  | [], _ => true
  | _ :: _, [] => false
  | c :: p, d :: l => c == d && pyStartsWithL p l

/-- Python `str.startswith` on strings. -/
def pyStartswith (pre s : String) : Bool :=
  pyStartsWithL pre.data s.data

/-- Python `str.endswith` on strings. -/
def pyEndswith (suf s : String) : Bool :=
  pyStartsWithL suf.data.reverse s.data.reverse

/-- Python's substring test `needle in hay` on character lists. -/
def occursIn (needle : List Char) : List Char → Bool
  | [] => needle == []
  | c :: rest => pyStartsWithL needle (c :: rest) || occursIn needle rest

/-- Split a character list at the first occurrence of `sep`
(Python `s.split(sep, 1)` when `sep in s`; `none` when absent). -/
def splitOnceList (sep : List Char) : List Char → Option (List Char × List Char)
  | [] => none
  | c :: rest =>
    if pyStartsWithL sep (c :: rest) then some ([], (c :: rest).drop sep.length)
    else
      match splitOnceList sep rest with
      | some (a, b) => some (c :: a, b)
      | none => none

/-- Split a string at the first occurrence of `sep`. -/
def pySplitOnce (sep s : String) : Option (String × String) :=
  match splitOnceList sep.data s.data with
  | some (a, b) => some (String.mk a, String.mk b)
  | none => none

/-- Python `'x'.split(ch)` on character lists (always non-empty result). -/
def splitChar (sep : Char) : List Char → List (List Char)
  | [] => [[]]
  | c :: rest =>
    let r := splitChar sep rest
    if c = sep then [] :: r
    else
      match r with
      | [] => [[c]]
      | h :: t => (c :: h) :: t

/-- Join path components with `'/'` (the `'/'.join` step of `normpath`). -/
def joinSlash : List (List Char) → List Char
  | [] => []
  | [c] => c
  | c :: rest => c ++ '/' :: joinSlash rest

/-- `posixpath.normpath`: collapse `//`, `.` and `..` components lexically. -/
def normpath (p : String) : String :=
  if p.data = [] then "."
  else
    let initialSlashes : Nat :=
      if pyStartsWithL ['/', '/'] p.data ∧ ¬ pyStartsWithL ['/', '/', '/'] p.data then 2
      else if pyStartsWithL ['/'] p.data then 1 else 0
    let comps := splitChar '/' p.data
    let newComps := comps.foldl (fun acc comp =>
      if comp = [] ∨ comp = ['.'] then acc
      else if comp ≠ ['.', '.'] ∨ (initialSlashes = 0 ∧ acc = []) ∨ acc.getLast? = some ['.', '.'] then
        acc ++ [comp]
      else if acc ≠ [] then acc.dropLast
      else acc) []
    let res := List.replicate initialSlashes '/' ++ joinSlash newComps
    if res = [] then "." else String.mk res

/-- `posixpath.join` restricted to two components, as the tool uses it. -/
def pyJoin (a b : String) : String :=
  if pyStartswith "/" b then b
  else if a = "" ∨ pyEndswith "/" a then a ++ b
  else a ++ "/" ++ b

/-- `os.path.abspath` relative to the working directory `cwd`. -/
def abspath (cwd p : String) : String :=
  if pyStartsWithL ['/'] p.data then normpath p else normpath (pyJoin cwd p)

/-! ## Python dict model (string keys and values) -/

/-- A Python `dict` with string keys and values, as its association list. -/
abbrev Dict := List (String × String)

/-- Dict lookup: `d.get(k)`. -/
def dget (d : Dict) (k : String) : Option String :=
  (d.find? (fun p => p.1 == k)).map Prod.snd

/-- Dict assignment `d[k] = v`: replace the value in place if the key is
present, otherwise append the pair (Python insertion-order semantics). -/
def dinsert : Dict → String → String → Dict
  | [], k, v => [(k, v)]
  | p :: d, k, v => if p.1 == k then (k, v) :: d else p :: dinsert d k v

/-- Build a dict by successive assignments from an association list. -/
def dictOf (l : List (String × String)) : Dict :=
  l.foldl (fun d p => dinsert d p.1 p.2) []

/-- `ImmichBackupTool.get_env_var`: lookup with a fallback default. -/
def get_env_var (env : Dict) (k dflt : String) : String :=
  (dget env k).getD dflt

/-! ## Environment-file loading (`load_environment`) -/

/-- One iteration of the `load_environment` loop: strip the line, ignore
blank lines and lines starting with `#`, and split at the first `=`. -/
def parseEnvLine (line : String) : Option (String × String) :=
  let l := pyStrip line
  if l ≠ "" ∧ ¬ pyStartswith "#" l then
    match splitOnceList ['='] l.data with
    | some (k, v) => some (String.mk k, String.mk v)
    | none => none
  else none

/-- `ImmichBackupTool.load_environment`: fold the `KEY=value` lines of the
environment file into `self.env_vars`. -/
def load_environment (lines : List String) : Dict :=
  lines.foldl (fun env line =>
    match parseEnvLine line with
    | some p => dinsert env p.1 p.2
    | none => env) []

/-- Value of the last pair carrying key `k` (spec wording: last occurrence
wins); `none` when no pair carries `k`. -/
def lastVal (k : String) : List (String × String) → Option String
  | [] => none
  | p :: ps =>
    match lastVal k ps with
    | some v => some v
    | none => if p.1 == k then some p.2 else none

/-! ## Variable expansion (`expand_env_vars`) -/

/-- The character `{` (spelled numerically). -/
def lbrace : Char := Char.ofNat 123

/-- The character `}` (spelled numerically). -/
def rbrace : Char := Char.ofNat 125

/-- The replacement for one matched variable group: split at the first
`:-` for a defaulted form, otherwise look up with empty-string default
(`replace_var` inside `expand_env_vars`). -/
def replaceVar (env : Dict) (inner : List Char) : List Char :=
  match splitOnceList [':', '-'] inner with
  | some (n, d) => (get_env_var env (String.mk n) (String.mk d)).data
  | none => (get_env_var env (String.mk inner) "").data

/-- Left-to-right scan of `re.sub` with the variable pattern: a match is a
dollar, an opening brace, one or more non-closing-brace characters and a
closing brace.  `fuel` is an upper bound on the remaining length. -/
def expandAux (env : Dict) : Nat → List Char → List Char
  | _, [] => []
  | 0, l => l
  | fuel + 1, c :: rest =>
    if c = '$' then
      match rest with
      | c2 :: rest2 =>
        if c2 = lbrace then
          match splitOnceList [rbrace] rest2 with
          | some (inner, after) =>
            if inner = [] then c :: expandAux env fuel rest
            else replaceVar env inner ++ expandAux env fuel after
          | none => c :: expandAux env fuel rest
        else c :: expandAux env fuel rest
      | [] => c :: expandAux env fuel rest
    else c :: expandAux env fuel rest

/-- `ImmichBackupTool.expand_env_vars`. -/
def expand_env_vars (env : Dict) (s : String) : String :=
  String.mk (expandAux env s.data.length s.data)

/-! ## Compose file model -/

/-- One service block: an optional `container_name` and its `volumes`
strings (`hostPath:containerPath`). -/
structure ServiceConfig where
  container_name : Option String
  volumes : List String

/-- The parsed compose document: named services in file order. -/
structure ComposeData where
  services : List (String × ServiceConfig)

/-- `ImmichBackupTool.parse_docker_compose`: collect
`volumes[container_path] = expanded host_path` over every service volume
string containing a colon. -/
def parse_docker_compose (env : Dict) (compose : ComposeData) : Dict :=
  compose.services.foldl (fun vols s =>
    s.2.volumes.foldl (fun vols v =>
      match splitOnceList [':'] v.data with
      | some (hp, cp) => dinsert vols (String.mk cp) (expand_env_vars env (String.mk hp))
      | none => vols) vols) []

/-- `ImmichBackupTool.get_container_names`: service name to
`container_name` (default: the service name). -/
def get_container_names (compose : ComposeData) : Dict :=
  dictOf (compose.services.map (fun s => (s.1, s.2.container_name.getD s.1)))

/-! ## Path resolution (`get_backup_paths`) -/

/-- The resolved backup paths record. -/
structure Paths where
  upload_location : String
  db_data_location : String
  critical_folders : List String
  deriving DecidableEq

/-- `ImmichBackupTool.get_backup_paths`: volume binding for the well-known
container paths wins; environment defaults (`UPLOAD_LOCATION`,
`DB_DATA_LOCATION`) are the fallback; critical sub-folders are the
existing ones among `library`, `upload`, `profile`.  `pex` is the
`os.path.exists` oracle and `cwd` the working directory for `abspath`. -/
def get_backup_paths (env : Dict) (compose : ComposeData) (cwd : String)
    (pex : String → Bool) : Paths :=
  let volumes := parse_docker_compose env compose
  let upload0 := (dget volumes "/data").map (abspath cwd)
  let db0 := (dget volumes "/var/lib/postgresql/data").map (abspath cwd)
  let upload_location :=
    match upload0 with
    | some s => if s = "" then abspath cwd (get_env_var env "UPLOAD_LOCATION" "./library") else s
    | none => abspath cwd (get_env_var env "UPLOAD_LOCATION" "./library")
  let db_data_location :=
    match db0 with
    | some s => if s = "" then abspath cwd (get_env_var env "DB_DATA_LOCATION" "./postgres") else s
    | none => abspath cwd (get_env_var env "DB_DATA_LOCATION" "./postgres")
  { upload_location := upload_location,
    db_data_location := db_data_location,
    critical_folders :=
      (["library", "upload", "profile"].map (fun f => pyJoin upload_location f)).filter pex }

/-! ## Filesystem trees and manifests -/

/-- The backup manifest written by `create_backup_manifest`. -/
structure Manifest where
  timestamp : String
  immich_version : String
  database_backup : String
  filesystem_backup : String
  original_paths : Paths
  env_vars : Dict

/-- Contents of a file in the model: either a JSON manifest or opaque
bytes. -/
inductive FileData where
  | manifestJson (m : Manifest)
  | blob (s : String)

/-- A filesystem entry: a file or a directory of named entries. -/
inductive Entry where
  | file (d : FileData)
  | dir (entries : List (String × Entry))

/-- Find the entry named `n` in a directory listing. -/
def lookupEntry (es : List (String × Entry)) (n : String) : Option Entry :=
  (es.find? (fun p => p.1 == n)).map Prod.snd

/-- The child named `n` of an entry (`none` on files, matching path
lookup through a non-directory). -/
def Entry.childNamed : Entry → String → Option Entry
  | Entry.file _, _ => none
  | Entry.dir es, n => lookupEntry es n

/-- Open and JSON-decode `backup_manifest.json` inside a backup
directory. -/
def readManifest (bd : List (String × Entry)) : Option Manifest :=
  match lookupEntry bd "backup_manifest.json" with
  | some (Entry.file (FileData.manifestJson m)) => some m
  | _ => none

/-- True when the optional entry is a regular file. -/
def isFileEntry : Option Entry → Bool
  | some (Entry.file _) => true
  | _ => false

/-- True when the optional entry is a directory. -/
def isDirEntry : Option Entry → Bool
  | some (Entry.dir _) => true
  | _ => false

/-! ## Errors and backup orchestration -/

/-- Exceptions the embedded routines can raise.
`calledProcessError` is `subprocess.CalledProcessError` from
`run_command` with its default `check=True`; `jsonError` stands for the
read/decode errors of a present-but-unreadable manifest. -/
inductive PyError where
  | calledProcessError
  | runtimeError (msg : String)
  | fileNotFoundError (msg : String)
  | jsonError
  deriving DecidableEq

/-- Observable steps of a backup run, in execution order. -/
inductive BEvent where
  | stopCmd (cs : List String)
  | dumpPipeline
  | copyFilesystem
  | writeManifest
  | createArchive
  | startCmd (cs : List String)
  | removeTempDir
  deriving DecidableEq

/-- Name of the gzipped database dump created by
`create_database_backup`. -/
def dbBackupName (ts : String) : String :=
  "immich_db_backup_" ++ ts ++ ".sql.gz"

/-- Base name of the temporary backup directory (also the single
top-level member of the archive). -/
def tempDirName (ts : String) : String :=
  "immich_backup_" ++ ts

/-- `ImmichBackupTool.create_backup_manifest`: the manifest records the
base names of the dump file and of the `filesystem` directory, the
resolved paths and the whole environment. -/
def mkManifest (env : Dict) (paths : Paths) (tsDb tsManifest : String) : Manifest :=
  { timestamp := tsManifest,
    immich_version := get_env_var env "IMMICH_VERSION" "unknown",
    database_backup := dbBackupName tsDb,
    filesystem_backup := "filesystem",
    original_paths := paths,
    env_vars := env }

/-- Contents of the temporary backup directory after the dump, the
filesystem copy and the manifest write: the dump file, the
`filesystem/upload_location` copy of the upload tree, and the
manifest. -/
def backupDirContents (env : Dict) (paths : Paths) (uploadTree : Entry)
    (tsDb tsManifest : String) : List (String × Entry) :=
  [(dbBackupName tsDb, Entry.file (FileData.blob "")),
   ("filesystem", Entry.dir [("upload_location", uploadTree)]),
   ("backup_manifest.json", Entry.file (FileData.manifestJson (mkManifest env paths tsDb tsManifest)))]

/-- The containers stopped by `backup`: every service whose name does not
contain `database`, under its container identity. -/
def stop_containers_of (compose : ComposeData) : List String :=
  ((get_container_names compose).filter (fun p => !(occursIn "database".data p.1.data))).map Prod.snd

/-- Result of a backup run: the event trace, the archive contents at the
destination (top-level entries) when one was written, and the outcome. -/
structure BackupOut where
  events : List BEvent
  archive : Option (List (String × Entry))
  result : Except PyError Unit

/-- The `finally` block of `backup`: when containers were selected for
stopping, run the checked `docker start` command (on failure its
`CalledProcessError` replaces the pending outcome and the temporary
directory is not removed); then remove the temporary directory. -/
def backupFinally (stopCs : List String) (restartOk : Bool) (pending : Except PyError Unit) :
    List BEvent × Except PyError Unit :=
  if stopCs.isEmpty then ([BEvent.removeTempDir], pending)
  else if restartOk then ([BEvent.startCmd stopCs, BEvent.removeTempDir], pending)
  else ([BEvent.startCmd stopCs], Except.error PyError.calledProcessError)

/-- `ImmichBackupTool.backup`.  `containersPresent` models the
`check_docker_compose` container probe, `uploadTree` the tree on disk at
the resolved upload location, `stopOk`/`dumpOk`/`restartOk` the exit
status of the `docker stop` command, of the dump pipeline and of the
`finally` block's `docker start`, and `tsArchive`/`tsDb`/`tsManifest`
the three `datetime.now()` reads.  The `finally` block runs on every
path that entered the `try`. -/
def backupRun (env : Dict) (compose : ComposeData) (cwd : String) (pex : String → Bool)
    (uploadTree : Entry) (tsArchive tsDb tsManifest : String)
    (containersPresent stopOk dumpOk restartOk : Bool) : BackupOut :=
  if containersPresent then
    let paths := get_backup_paths env compose cwd pex
    let stopCs := stop_containers_of compose
    let tryOut : List BEvent × Option (List (String × Entry)) × Except PyError Unit :=
      if stopCs.isEmpty || stopOk then
        let evStop := if stopCs.isEmpty then [] else [BEvent.stopCmd stopCs]
        if dumpOk then
          (evStop ++ [BEvent.dumpPipeline, BEvent.copyFilesystem,
             BEvent.writeManifest, BEvent.createArchive],
           some [(tempDirName tsArchive,
             Entry.dir (backupDirContents env paths uploadTree tsDb tsManifest))],
           Except.ok ())
        else
          (evStop ++ [BEvent.dumpPipeline], none, Except.error PyError.calledProcessError)
      else
        ([BEvent.stopCmd stopCs], none, Except.error PyError.calledProcessError)
    let fin := backupFinally stopCs restartOk tryOut.2.2
    { events := tryOut.1 ++ fin.1, archive := tryOut.2.1, result := fin.2 }
  else
    { events := [], archive := none,
      result := Except.error (PyError.runtimeError
        "Immich containers not found. Please ensure Immich is deployed.") }

/-- True exactly on the `RuntimeError` that `create_database_backup`
would raise for a failed dump. -/
def isDbBackupFailedError : Except PyError Unit → Bool
  | Except.error (PyError.runtimeError m) => m == "Database backup failed"
  | _ => false

/-! ## Restore orchestration -/

/-- `ImmichBackupTool.extract_backup` on the extracted top-level listing:
pick the first `os.listdir` member named `immich_backup_*`; on failure
(`no backup directory found` / `manifest file not found`) the extraction
directory is removed (second component `true`) and a `RuntimeError` is
raised. On success the located backup directory's entries are
returned. -/
def extract_backup (extracted : List (String × Entry)) :
    Except PyError (String × List (String × Entry)) × Bool :=
  match (extracted.map Prod.fst).filter (fun d => pyStartswith "immich_backup_" d) with
  | [] => (Except.error (PyError.runtimeError "Invalid backup archive: no backup directory found"), true)
  | d :: _ =>
    match lookupEntry extracted d with
    | some (Entry.dir es) =>
      if (lookupEntry es "backup_manifest.json").isSome then (Except.ok (d, es), false)
      else (Except.error (PyError.runtimeError "Invalid backup archive: manifest file not found"), true)
    | _ => (Except.error (PyError.runtimeError "Invalid backup archive: manifest file not found"), true)

/-- Does `os.path.exists` hold of `d/backup_manifest.json` for the first
backup-directory candidate `d` of the extracted listing? -/
def hasManifestDir (extracted : List (String × Entry)) (d : String) : Bool :=
  match lookupEntry extracted d with
  | some (Entry.dir es) => (lookupEntry es "backup_manifest.json").isSome
  | _ => false

/-- `ImmichBackupTool.restore_database`: read the manifest, check the
dump file exists, then run `docker compose down -v` (unchecked),
`docker compose create`, `docker start` and the gunzip/sed/psql pipeline
(all checked, so a non-zero exit raises `CalledProcessError`). -/
def restore_database_model (bd : List (String × Entry)) (createOk startOk restoreOk : Bool) :
    Except PyError Unit :=
  match readManifest bd with
  | none => Except.error PyError.jsonError
  | some m =>
    if (lookupEntry bd m.database_backup).isSome then
      if createOk then
        if startOk then
          if restoreOk then Except.ok () else Except.error PyError.calledProcessError
        else Except.error PyError.calledProcessError
      else Except.error PyError.calledProcessError
    else Except.error (PyError.fileNotFoundError "Database backup file not found")

/-- The archived upload subtree `fs_backup_dir/upload_location` named by
the manifest, if present in the backup directory. -/
def uploadBackupOf (bd : List (String × Entry)) (m : Manifest) : Option Entry :=
  match Entry.childNamed (Entry.dir bd) m.filesystem_backup with
  | some e => e.childNamed "upload_location"
  | none => none

/-- `ImmichBackupTool.restore_filesystem` as a transformer of the host
tree at the resolved upload location (`host`; `none` when the location
does not exist).  The absence check on the archived subtree happens
before any removal; on success the existing tree is removed and the
archived tree copied into place. -/
def restore_filesystem_model (bd : List (String × Entry)) (host : Option Entry) :
    Option Entry × Except PyError Unit :=
  match readManifest bd with
  | none => (host, Except.error PyError.jsonError)
  | some m =>
    match uploadBackupOf bd m with
    | none => (host, Except.error (PyError.fileNotFoundError "Filesystem backup not found"))
    | some ub => (some ub, Except.ok ())

/-- Observable steps of a restore run. -/
inductive REvent where
  | extractArchive
  | dbRestore
  | fsRestore
  | healthCheck
  | removeExtractDir
  deriving DecidableEq

/-- The restore input: `os.path.isfile`/`os.path.isdir` of the given
location string, the location string itself, the top-level listing the
archive would extract to, and (when a directory) its listing. -/
structure RestoreCtx where
  isFile : Bool
  isDir : Bool
  locName : String
  extracted : List (String × Entry)
  dirContents : List (String × Entry)

/-- Result of a restore run: trace, final host upload tree, whether the
temporary extraction directory was removed, and the outcome. -/
structure RestoreOut where
  events : List REvent
  host : Option Entry
  extractDirRemoved : Bool
  result : Except PyError Unit

/-- The `try` body of `restore`: database restore, filesystem restore,
then the health probe (whose failures are swallowed, see
`test_immich_health`). -/
def restoreBody (bd : List (String × Entry)) (host : Option Entry)
    (createOk startOk dbRestoreOk : Bool) :
    List REvent × Option Entry × Except PyError Unit :=
  match restore_database_model bd createOk startOk dbRestoreOk with
  | Except.error e => ([REvent.dbRestore], host, Except.error e)
  | Except.ok _ =>
    match restore_filesystem_model bd host with
    | (host2, Except.error e) => ([REvent.dbRestore, REvent.fsRestore], host2, Except.error e)
    | (host2, Except.ok _) =>
      ([REvent.dbRestore, REvent.fsRestore, REvent.healthCheck], host2, Except.ok ())

/-- `ImmichBackupTool.restore`: dispatch on archive file (`*.tar.gz`)
versus directory, validate the manifest, run the body, and in the
archive case always remove the extraction directory afterwards. -/
def restoreRun (ctx : RestoreCtx) (createOk startOk dbRestoreOk : Bool)
    (host : Option Entry) : RestoreOut :=
  if ctx.isFile && pyEndswith ".tar.gz" ctx.locName then
    match extract_backup ctx.extracted with
    | (Except.error e, removed) =>
      { events := [REvent.extractArchive], host := host,
        extractDirRemoved := removed, result := Except.error e }
    | (Except.ok (_, bd), _) =>
      let r := restoreBody bd host createOk startOk dbRestoreOk
      { events := REvent.extractArchive :: r.1 ++ [REvent.removeExtractDir],
        host := r.2.1, extractDirRemoved := true, result := r.2.2 }
  else if ctx.isDir then
    if (lookupEntry ctx.dirContents "backup_manifest.json").isSome then
      let r := restoreBody ctx.dirContents host createOk startOk dbRestoreOk
      { events := r.1, host := r.2.1, extractDirRemoved := false, result := r.2.2 }
    else
      { events := [], host := host, extractDirRemoved := false,
        result := Except.error (PyError.fileNotFoundError "Invalid backup: manifest file not found") }
  else
    { events := [], host := host, extractDirRemoved := false,
      result := Except.error (PyError.fileNotFoundError
        ("Backup location not found or invalid: " ++ ctx.locName)) }

/-! ## Health probe (`test_immich_health`, HTTP retry portion) -/

/-- Outcome of one HTTP ping attempt: a status code, or a
`requests` network exception. -/
inductive ProbeResult where
  | status (code : Nat)
  | netErr
  deriving DecidableEq

/-- Observable steps of the retry loop: an attempt, or a sleep of the
given number of seconds. -/
inductive PEvent where
  | att (n : Nat)
  | sleepSec (s : Nat)
  deriving DecidableEq

/-- The retry loop of `test_immich_health`: attempt numbers count from
`a`, `fuel` attempts remain.  A 200 breaks out successfully; any other
status or a network exception is logged and, unless this was the last
attempt, followed by a 10-second sleep and a retry. -/
def pingLoop (probe : Nat → ProbeResult) : Nat → Nat → List PEvent × Bool
  | _, 0 => ([], false)
  | a, fuel + 1 =>
    if probe a = ProbeResult.status 200 then ([PEvent.att a], true)
    else if fuel = 0 then ([PEvent.att a], false)
    else
      let r := pingLoop probe (a + 1) fuel
      (PEvent.att a :: PEvent.sleepSec 10 :: r.1, r.2)

/-- The HTTP-retry portion of `ImmichBackupTool.test_immich_health`:
with `requests` importable, run up to `max_retries = 6` attempts with
`retry_delay = 10`; without it, skip the probe entirely.  The function
is total: no probe outcome propagates an exception. -/
def test_immich_health (requestsAvailable : Bool) (probe : Nat → ProbeResult) :
    List PEvent × Bool :=
  if requestsAvailable then pingLoop probe 1 6 else ([], false)

/-- The trace of `n` attempts starting at attempt `a` with a 10-second
sleep between consecutive attempts and none after the last. -/
def pingTraceAux : Nat → Nat → List PEvent
  | _, 0 => []
  | a, 1 => [PEvent.att a]
  | a, n + 2 => PEvent.att a :: PEvent.sleepSec 10 :: pingTraceAux (a + 1) (n + 1)

/-- Number of attempt events in a trace. -/
def countAtt (evs : List PEvent) : Nat :=
  evs.countP (fun e => match e with | PEvent.att _ => true | _ => false)

/-! ## Concrete fixtures (used by witnesses) -/

/-- The compose topology of the spec's end-to-end scenario: the main
service binds host `/data/lib` to container `/data`. -/
def composeScenario : ComposeData :=
  ⟨[("immich-server", ⟨some "immich_server", ["/data/lib:/data"]⟩)]⟩

/-- A three-service topology (server, cache, database). -/
def composeDemo : ComposeData :=
  ⟨[("immich-server", ⟨some "immich_server", ["/data/lib:/data"]⟩),
    ("redis", ⟨some "immich_redis", []⟩),
    ("database", ⟨some "immich_postgres", ["/data/pg:/var/lib/postgresql/data"]⟩)]⟩

/-- A small loaded environment. -/
def envDemo : Dict := [("UPLOAD_LOCATION", "/data/lib")]

/-- A probe that raises a network error on the first five attempts and
returns HTTP 200 on the sixth. -/
def probeSix : Nat → ProbeResult :=
  fun n => if n = 6 then ProbeResult.status 200 else ProbeResult.netErr

/-- A small manifest fixture. -/
def manifestDemo : Manifest :=
  { timestamp := "t", immich_version := "v",
    database_backup := "immich_db_backup_20240101_000000.sql.gz",
    filesystem_backup := "filesystem",
    original_paths :=
      { upload_location := "/data/lib", db_data_location := "/data/pg", critical_folders := [] },
    env_vars := envDemo }

/-- A backup directory carrying a manifest but no `filesystem` member. -/
def bdNoFs : List (String × Entry) :=
  [("backup_manifest.json", Entry.file (FileData.manifestJson manifestDemo)),
   ("immich_db_backup_20240101_000000.sql.gz", Entry.file (FileData.blob ""))]

/-- An extracted archive listing with no `immich_backup_*` member. -/
def extractedNoDir : List (String × Entry) :=
  [("stuff", Entry.file (FileData.blob ""))]

/-- An extracted archive listing whose backup directory lacks a
manifest. -/
def extractedNoManifest : List (String × Entry) :=
  [("immich_backup_20240101_000000", Entry.dir [("filesystem", Entry.dir [])])]

/-- Restore input: an archive with no backup-directory member. -/
def ctxNoDir : RestoreCtx := ⟨true, false, "backup.tar.gz", extractedNoDir, []⟩

/-- Restore input: an archive whose backup directory lacks a manifest. -/
def ctxNoManifest : RestoreCtx := ⟨true, false, "backup.tar.gz", extractedNoManifest, []⟩

/-- Restore input: a directory without a manifest. -/
def ctxDirNoManifest : RestoreCtx :=
  ⟨false, true, "backupdir", [], [("other", Entry.file (FileData.blob ""))]⟩

/-- Restore input: an existing regular file that is not named
`*.tar.gz`. -/
def ctxPlainFile : RestoreCtx := ⟨true, false, "backup.txt", [], []⟩

/-! ## Dict lemmas -/

theorem dget_nil (k : String) : dget [] k = none := rfl

theorem dget_cons (p : String × String) (d : Dict) (k : String) :
    dget (p :: d) k = if p.1 == k then some p.2 else dget d k := by
  by_cases h : (p.1 == k) = true <;> simp [dget, List.find?, h]

theorem dget_dinsert (d : Dict) (k v k' : String) :
    dget (dinsert d k v) k' = if k' = k then some v else dget d k' := by
  induction d with
  | nil =>
    rcases eq_or_ne k' k with h | h
    · subst h; simp [dinsert, dget_cons]
    · have h2 : k ≠ k' := Ne.symm h
      simp [dinsert, dget_cons, dget_nil, h, h2]
  | cons p d ih =>
    by_cases hp : (p.1 == k) = true
    · have hpk : p.1 = k := by simpa using hp
      rcases eq_or_ne k' k with h | h
      · subst h; simp [dinsert, hp, dget_cons]
      · have h2 : k ≠ k' := Ne.symm h
        simp [dinsert, hp, dget_cons, h, hpk, h2]
    · have hp2 : (p.1 == k) = false := by simpa using hp
      rcases eq_or_ne k' k with h | h
      · subst h
        have hpk : p.1 ≠ k' := by simpa using hp2
        simp [dinsert, hp2, dget_cons, ih, hpk]
      · simp [dinsert, hp2, dget_cons, ih, h]

theorem load_env_fold (k : String) (ls : List String) : ∀ env : Dict,
    dget (ls.foldl (fun env line =>
      match parseEnvLine line with
      | some p => dinsert env p.1 p.2
      | none => env) env) k
      = (match lastVal k (ls.filterMap parseEnvLine) with
          | some v => some v
          | none => dget env k) := by
  induction ls with
  | nil => intro env; simp [lastVal]
  | cons l ls ih =>
    intro env
    cases hp : parseEnvLine l with
    | none => simp [hp, List.filterMap_cons, ih]
    | some p =>
      simp only [List.foldl_cons, hp, List.filterMap_cons]
      rw [ih]
      cases hlast : lastVal k (ls.filterMap parseEnvLine) with
      | some v => simp [lastVal, hlast]
      | none =>
        simp only [lastVal, hlast, dget_dinsert]
        rcases eq_or_ne k p.1 with h | h
        · simp [h]
        · have h2 : p.1 ≠ k := Ne.symm h
          simp [h, h2]

/-! ## String and split lemmas -/

theorem data_append (a b : String) : (a ++ b).data = a.data ++ b.data := rfl

theorem mk_data (s : String) : String.mk s.data = s := rfl

theorem pyStartsWithL_self_append (l t : List Char) : pyStartsWithL l (l ++ t) = true := by
  induction l with
  | nil => rfl
  | cons c l ih => simp [pyStartsWithL, ih]

theorem splitOnce_append (sep b : List Char) (hsep : sep ≠ []) :
    ∀ a : List Char,
      (∀ t s : List Char, t ++ s = a → s ≠ [] → pyStartsWithL sep (s ++ sep ++ b) = false) →
      splitOnceList sep (a ++ sep ++ b) = some (a, b) := by
  intro a
  induction a with
  | nil =>
    intro _
    rcases hse : sep with _ | ⟨c, sep2⟩
    · exact absurd hse hsep
    · subst hse
      show splitOnceList (c :: sep2) (c :: (sep2 ++ b)) = some ([], b)
      have hpre : pyStartsWithL (c :: sep2) (c :: (sep2 ++ b)) = true :=
        pyStartsWithL_self_append (c :: sep2) b
      simp only [splitOnceList, hpre, if_true]
      have : (c :: (sep2 ++ b)).drop (c :: sep2).length = b :=
        List.drop_left (c :: sep2) b
      rw [this]
  | cons x a ih =>
    intro H
    have hx : pyStartsWithL sep (x :: (a ++ sep ++ b)) = false :=
      H [] (x :: a) rfl (by simp)
    have ha : splitOnceList sep (a ++ sep ++ b) = some (a, b) := by
      refine ih (fun t s ht hs => H (x :: t) s ?_ hs)
      simp [ht]
    show splitOnceList sep (x :: (a ++ sep ++ b)) = some (x :: a, b)
    rw [splitOnceList, hx, ha]
    simp

theorem splitOnce_none_iff (sep : List Char) (hsep : sep ≠ []) :
    ∀ l : List Char, (splitOnceList sep l = none ↔ occursIn sep l = false) := by
  intro l
  induction l with
  | nil => simp [splitOnceList, occursIn, hsep]
  | cons c rest ih =>
    by_cases hpre : pyStartsWithL sep (c :: rest) = true
    · simp [splitOnceList, occursIn, hpre]
    · have hpre2 : pyStartsWithL sep (c :: rest) = false := by simpa using hpre
      cases hrest : splitOnceList sep rest with
      | some p => simp [splitOnceList, occursIn, hpre2, hrest, ← ih]
      | none => simp [splitOnceList, occursIn, hpre2, hrest, ← ih]

theorem splitOnce_none_of_not_occurs (sep l : List Char) (hsep : sep ≠ [])
    (h : occursIn sep l = false) : splitOnceList sep l = none :=
  (splitOnce_none_iff sep hsep l).mpr h

theorem occursIn_of_suffix_start (sep : List Char) :
    ∀ (t s l : List Char), t ++ s = l → pyStartsWithL sep s = true → occursIn sep l = true := by
  intro t
  induction t with
  | nil =>
    intro s l h hs
    rw [List.nil_append] at h
    subst h
    cases s with
    | nil =>
      cases sep with
      | nil => rfl
      | cons c sep2 => simp [pyStartsWithL] at hs
    | cons c s2 => simp [occursIn, hs]
  | cons x t ih =>
    intro s l h hs
    rw [List.cons_append] at h
    subst h
    have := ih s (t ++ s) rfl hs
    simp [occursIn, this]

/-! ## Expansion lemmas -/

theorem startsWith_rbrace_false (b a : List Char) (ha : rbrace ∉ a) :
    ∀ t s : List Char, t ++ s = a → s ≠ [] → pyStartsWithL [rbrace] (s ++ [rbrace] ++ b) = false := by
  intro t s h hs
  cases s with
  | nil => exact absurd rfl hs
  | cons c s2 =>
    have hc : c ∈ a := by
      rw [← h]; exact List.mem_append.mpr (Or.inr (List.mem_cons_self _ _))
    have hcb : c ≠ rbrace := fun e => ha (e ▸ hc)
    have : (rbrace == c) = false := by
      simp only [beq_eq_false_iff_ne, ne_eq]
      exact fun e => hcb e.symm
    simp [pyStartsWithL, this]

theorem startsWith_colondash_false (b a : List Char) (ha : occursIn [':', '-'] a = false) :
    ∀ t s : List Char, t ++ s = a → s ≠ [] →
      pyStartsWithL [':', '-'] (s ++ [':', '-'] ++ b) = false := by
  intro t s h hs
  cases s with
  | nil => exact absurd rfl hs
  | cons c s2 =>
    by_cases hc : c = ':'
    · subst hc
      cases s2 with
      | nil => simp [pyStartsWithL]
      | cons d s3 =>
        by_cases hd : d = '-'
        · subst hd
          have : occursIn [':', '-'] a = true :=
            occursIn_of_suffix_start [':', '-'] t (':' :: '-' :: s3) a h (by simp [pyStartsWithL])
          rw [this] at ha
          exact absurd ha (by simp)
        · have : ('-' == d) = false := by
            simp only [beq_eq_false_iff_ne, ne_eq]
            exact fun e => hd e.symm
          simp [pyStartsWithL, this]
    · have : (':' == c) = false := by
        simp only [beq_eq_false_iff_ne, ne_eq]
        exact fun e => hc e.symm
      simp [pyStartsWithL, this]

theorem splitOnce_rbrace (name rest : List Char) (h : rbrace ∉ name) :
    splitOnceList [rbrace] (name ++ rbrace :: rest) = some (name, rest) := by
  have := splitOnce_append [rbrace] rest (by simp) name (startsWith_rbrace_false rest name h)
  simpa using this

theorem splitOnce_colondash (name dflt : List Char) (h : occursIn [':', '-'] name = false) :
    splitOnceList [':', '-'] (name ++ ':' :: '-' :: dflt) = some (name, dflt) := by
  have := splitOnce_append [':', '-'] dflt (by simp) name (startsWith_colondash_false dflt name h)
  simpa using this

theorem expandAux_nodollar_append (env : Dict) :
    ∀ l : List Char, (∀ c ∈ l, c ≠ '$') →
      ∀ (fuel : Nat) (m : List Char),
        expandAux env (l.length + fuel) (l ++ m) = l ++ expandAux env fuel m := by
  intro l
  induction l with
  | nil => intro _ fuel m; simp
  | cons c l ih =>
    intro h fuel m
    have hc : c ≠ '$' := h c (List.mem_cons_self _ _)
    have hlen : (c :: l).length + fuel = (l.length + fuel) + 1 := by
      simp [List.length_cons]; omega
    rw [hlen]
    show expandAux env ((l.length + fuel) + 1) (c :: (l ++ m)) = c :: (l ++ expandAux env fuel m)
    rw [expandAux.eq_def]
    simp [hc, ih (fun x hx => h x (List.mem_cons_of_mem _ hx)) fuel m]

theorem expandAux_dollar (env : Dict) (fuel : Nat) (rest2 inner after : List Char)
    (hsplit : splitOnceList [rbrace] rest2 = some (inner, after)) (hinner : inner ≠ []) :
    expandAux env (fuel + 1) ('$' :: lbrace :: rest2) =
      replaceVar env inner ++ expandAux env fuel after := by
  rw [expandAux.eq_def]
  simp [hsplit, hinner]

theorem expand_nodollar (env : Dict) (s : String) (h : ∀ c ∈ s.data, c ≠ '$') :
    expand_env_vars env s = s := by
  rw [expand_env_vars]
  have h0 := expandAux_nodollar_append env s.data h 0 []
  have e0 : expandAux env 0 [] = [] := rfl
  rw [e0, List.append_nil, Nat.add_zero] at h0
  rw [h0, mk_data]

theorem expand_nodollar_append (env : Dict) (s t : String) (h : ∀ c ∈ s.data, c ≠ '$') :
    expand_env_vars env (s ++ t) = s ++ expand_env_vars env t := by
  rw [expand_env_vars, expand_env_vars, data_append, List.length_append,
    expandAux_nodollar_append env s.data h t.data.length t.data]
  rfl

theorem expand_var_plain (env : Dict) (name : String)
    (hne : name.data ≠ []) (hb : rbrace ∉ name.data)
    (hcd : occursIn [':', '-'] name.data = false) :
    expand_env_vars env ("$\x7b" ++ name ++ "\x7d") = (dget env name).getD "" := by
  rw [expand_env_vars]
  have hd : ("$\x7b" ++ name ++ "\x7d").data = '$' :: lbrace :: (name.data ++ [rbrace]) := by
    rw [data_append, data_append]
    have e1 : "$\x7b".data = ['$', lbrace] := by decide
    have e2 : "\x7d".data = [rbrace] := by decide
    rw [e1, e2]
    simp
  rw [hd]
  have hl : ('$' :: lbrace :: (name.data ++ [rbrace])).length = (name.data.length + 2) + 1 := by
    simp only [List.length_cons, List.length_append, List.length_nil]
  rw [hl]
  rw [expandAux_dollar env (name.data.length + 2) (name.data ++ [rbrace]) name.data []
    (splitOnce_rbrace name.data [] hb) hne]
  have e3 : expandAux env (name.data.length + 2) [] = [] := rfl
  rw [e3, List.append_nil, replaceVar,
    splitOnce_none_of_not_occurs [':', '-'] name.data (by simp) hcd]
  simp [mk_data, get_env_var]

theorem expand_var_default (env : Dict) (name dflt : String)
    (hbn : rbrace ∉ name.data) (hbd : rbrace ∉ dflt.data)
    (hcd : occursIn [':', '-'] name.data = false) :
    expand_env_vars env ("$\x7b" ++ name ++ ":-" ++ dflt ++ "\x7d") = (dget env name).getD dflt := by
  rw [expand_env_vars]
  have hbInner : rbrace ∉ (name.data ++ ':' :: '-' :: dflt.data) := by
    intro hmem
    simp only [List.mem_append, List.mem_cons] at hmem
    rcases hmem with h | h | h | h
    · exact hbn h
    · exact absurd h (by decide)
    · exact absurd h (by decide)
    · exact hbd h
  have hd : ("$\x7b" ++ name ++ ":-" ++ dflt ++ "\x7d").data
      = '$' :: lbrace :: ((name.data ++ ':' :: '-' :: dflt.data) ++ [rbrace]) := by
    rw [data_append, data_append, data_append, data_append]
    have e1 : "$\x7b".data = ['$', lbrace] := by decide
    have e2 : "\x7d".data = [rbrace] := by decide
    have e3 : ":-".data = [':', '-'] := by decide
    rw [e1, e2, e3]
    simp
  rw [hd]
  have hl : ('$' :: lbrace :: ((name.data ++ ':' :: '-' :: dflt.data) ++ [rbrace])).length
      = ((name.data.length + dflt.data.length + 4) + 1) := by
    simp only [List.length_cons, List.length_append, List.length_nil]
    omega
  rw [hl]
  rw [expandAux_dollar env (name.data.length + dflt.data.length + 4)
    ((name.data ++ ':' :: '-' :: dflt.data) ++ [rbrace]) (name.data ++ ':' :: '-' :: dflt.data) []
    (splitOnce_rbrace (name.data ++ ':' :: '-' :: dflt.data) [] hbInner) (by simp)]
  have e4 : expandAux env (name.data.length + dflt.data.length + 4) [] = [] := rfl
  rw [e4, List.append_nil, replaceVar, splitOnce_colondash name.data dflt.data hcd]
  simp [mk_data, get_env_var]

theorem expandAux_nil (env : Dict) : ∀ f : Nat, expandAux env f [] = [] := by
  intro f
  cases f <;> rfl

theorem expandAux_cons_nondollar (env : Dict) (f : Nat) (c : Char) (rest : List Char)
    (hc : c ≠ '$') : expandAux env (f + 1) (c :: rest) = c :: expandAux env f rest := by
  rw [expandAux.eq_def]
  simp [hc]

theorem expandAux_dollar_nil (env : Dict) (f : Nat) : expandAux env (f + 1) ['$'] = ['$'] := by
  rw [expandAux.eq_def]
  simp [expandAux_nil]

theorem expandAux_dollar_nonbrace (env : Dict) (f : Nat) (c2 : Char) (rest2 : List Char)
    (hc2 : c2 ≠ lbrace) :
    expandAux env (f + 1) ('$' :: c2 :: rest2) = '$' :: expandAux env f (c2 :: rest2) := by
  rw [expandAux.eq_def]
  simp [hc2]

theorem expandAux_dollar_none (env : Dict) (f : Nat) (rest2 : List Char)
    (h : splitOnceList [rbrace] rest2 = none) :
    expandAux env (f + 1) ('$' :: lbrace :: rest2) = '$' :: expandAux env f (lbrace :: rest2) := by
  rw [expandAux.eq_def]
  simp [h]

theorem expandAux_dollar_empty (env : Dict) (f : Nat) (rest2 after : List Char)
    (h : splitOnceList [rbrace] rest2 = some ([], after)) :
    expandAux env (f + 1) ('$' :: lbrace :: rest2) = '$' :: expandAux env f (lbrace :: rest2) := by
  rw [expandAux.eq_def]
  simp [h]

theorem pyStartsWithL_length : ∀ p l : List Char, pyStartsWithL p l = true → p.length ≤ l.length := by
  intro p
  induction p with
  | nil => intro l _; simp
  | cons c p ih =>
    intro l h
    cases l with
    | nil => simp [pyStartsWithL] at h
    | cons d l2 =>
      simp only [pyStartsWithL, Bool.and_eq_true] at h
      have := ih l2 h.2
      simp only [List.length_cons]
      omega

theorem splitOnceList_length (sep : List Char) :
    ∀ l a b : List Char, splitOnceList sep l = some (a, b) →
      a.length + sep.length + b.length = l.length := by
  intro l
  induction l with
  | nil => intro a b h; simp [splitOnceList] at h
  | cons c rest ih =>
    intro a b h
    by_cases hpre : pyStartsWithL sep (c :: rest) = true
    · simp only [splitOnceList, hpre, if_true] at h
      obtain ⟨ha, hb⟩ := Prod.mk.injEq _ _ _ _ ▸ Option.some.injEq _ _ ▸ h
      have hle := pyStartsWithL_length sep (c :: rest) hpre
      subst ha
      subst hb
      simp only [List.length_nil, List.length_drop, List.length_cons]
      simp only [List.length_cons] at hle
      omega
    · have hpre2 : pyStartsWithL sep (c :: rest) = false := by simpa using hpre
      cases hs : splitOnceList sep rest with
      | none => simp [splitOnceList, hpre2, hs] at h
      | some p =>
        rcases p with ⟨a0, b0⟩
        simp only [splitOnceList, hpre2, Bool.false_eq_true, if_false, hs,
          Option.some.injEq, Prod.mk.injEq] at h
        obtain ⟨ha, hb⟩ := h
        subst ha
        subst hb
        have := ih a0 b0 hs
        simp only [List.length_cons]
        omega

theorem occursIn_single_not (x : Char) : ∀ l : List Char, x ∉ l → occursIn [x] l = false := by
  intro l
  induction l with
  | nil => intro _; rfl
  | cons c rest ih =>
    intro h
    have hx : (x == c) = false := by
      rw [beq_eq_false_iff_ne]
      exact fun e => h (e ▸ List.mem_cons_self c rest)
    simp [occursIn, pyStartsWithL, hx, ih (fun hm => h (List.mem_cons_of_mem _ hm))]

theorem expandAux_norbrace (env : Dict) :
    ∀ (l : List Char) (f : Nat), rbrace ∉ l → expandAux env f l = l := by
  intro l
  induction l with
  | nil => intro f _; rw [expandAux_nil]
  | cons c rest ih =>
    intro f h
    have hrest : rbrace ∉ rest := fun hm => h (List.mem_cons_of_mem _ hm)
    rcases f with _ | fc
    · rfl
    · by_cases hc : c = '$'
      · subst hc
        cases rest with
        | nil => rw [expandAux_dollar_nil]
        | cons c2 rest2 =>
          by_cases hc2 : c2 = lbrace
          · subst hc2
            have hnone : splitOnceList [rbrace] rest2 = none :=
              splitOnce_none_of_not_occurs [rbrace] rest2 (by simp)
                (occursIn_single_not rbrace rest2 (fun hm => hrest (List.mem_cons_of_mem _ hm)))
            rw [expandAux_dollar_none env fc rest2 hnone, ih fc hrest]
          · rw [expandAux_dollar_nonbrace env fc c2 rest2 hc2, ih fc hrest]
      · rw [expandAux_cons_nondollar env fc c rest hc, ih fc hrest]

theorem expandAux_fuel_congr (env : Dict) :
    ∀ (n : Nat) (l : List Char), l.length ≤ n →
      ∀ f f' : Nat, l.length ≤ f → l.length ≤ f' →
        expandAux env f l = expandAux env f' l := by
  intro n
  induction n with
  | zero =>
    intro l hl f f' _ _
    have h0 : l = [] := List.length_eq_zero.mp (Nat.le_zero.mp hl)
    subst h0
    rw [expandAux_nil, expandAux_nil]
  | succ n ih =>
    intro l hl f f' hf hf'
    cases l with
    | nil => rw [expandAux_nil, expandAux_nil]
    | cons c rest =>
      rcases f with _ | fc
      · simp at hf
      rcases f' with _ | fc'
      · simp at hf'
      have hl2 : rest.length + 1 ≤ n + 1 := by simpa using hl
      have hf2 : rest.length + 1 ≤ fc + 1 := by simpa using hf
      have hf2' : rest.length + 1 ≤ fc' + 1 := by simpa using hf'
      by_cases hc : c = '$'
      · subst hc
        cases rest with
        | nil => rw [expandAux_dollar_nil, expandAux_dollar_nil]
        | cons c2 rest2 =>
          have hr2 : rest2.length + 1 + 1 ≤ n + 1 := by simpa using hl2
          by_cases hc2 : c2 = lbrace
          · subst hc2
            cases hsp : splitOnceList [rbrace] rest2 with
            | none =>
              rw [expandAux_dollar_none env fc rest2 hsp,
                expandAux_dollar_none env fc' rest2 hsp]
              exact congrArg (fun x => '$' :: x)
                (ih _ (by omega) _ _ (by omega) (by omega))
            | some p =>
              rcases p with ⟨inner, after⟩
              by_cases hinner : inner = []
              · subst hinner
                rw [expandAux_dollar_empty env fc rest2 after hsp,
                  expandAux_dollar_empty env fc' rest2 after hsp]
                exact congrArg (fun x => '$' :: x)
                  (ih _ (by omega) _ _ (by omega) (by omega))
              · rw [expandAux_dollar env fc rest2 inner after hsp hinner,
                  expandAux_dollar env fc' rest2 inner after hsp hinner]
                have hlen := splitOnceList_length [rbrace] rest2 inner after hsp
                simp only [List.length_cons, List.length_nil] at hlen
                have hlb : (lbrace :: rest2).length = rest2.length + 1 := by simp
                refine congrArg (fun x => replaceVar env inner ++ x) ?_
                exact ih after (by omega) fc fc' (by omega) (by omega)
          · rw [expandAux_dollar_nonbrace env fc c2 rest2 hc2,
              expandAux_dollar_nonbrace env fc' c2 rest2 hc2]
            exact congrArg (fun x => '$' :: x)
              (ih _ (by omega) _ _ (by omega) (by omega))
      · rw [expandAux_cons_nondollar env fc c rest hc,
          expandAux_cons_nondollar env fc' c rest hc]
        exact congrArg (fun x => c :: x) (ih _ (by omega) _ _ (by omega) (by omega))

theorem expand_norbrace (env : Dict) (s : String) (h : rbrace ∉ s.data) :
    expand_env_vars env s = s := by
  rw [expand_env_vars, expandAux_norbrace env s.data s.data.length h, mk_data]

theorem expand_var_plain_concat (env : Dict) (name rest : String)
    (hne : name.data ≠ []) (hb : rbrace ∉ name.data)
    (hcd : occursIn [':', '-'] name.data = false) :
    expand_env_vars env ("$\x7b" ++ name ++ "\x7d" ++ rest)
      = (dget env name).getD "" ++ expand_env_vars env rest := by
  rw [expand_env_vars]
  have hd : ("$\x7b" ++ name ++ "\x7d" ++ rest).data
      = '$' :: lbrace :: (name.data ++ rbrace :: rest.data) := by
    rw [data_append, data_append, data_append]
    have e1 : "$\x7b".data = ['$', lbrace] := by decide
    have e2 : "\x7d".data = [rbrace] := by decide
    rw [e1, e2]
    simp
  rw [hd]
  have hl : ('$' :: lbrace :: (name.data ++ rbrace :: rest.data)).length
      = (name.data.length + rest.data.length + 2) + 1 := by
    simp only [List.length_cons, List.length_append]
    omega
  rw [hl]
  rw [expandAux_dollar env (name.data.length + rest.data.length + 2)
    (name.data ++ rbrace :: rest.data) name.data rest.data
    (splitOnce_rbrace name.data rest.data hb) hne]
  rw [expandAux_fuel_congr env rest.data.length rest.data (le_refl _)
    (name.data.length + rest.data.length + 2) rest.data.length (by omega) (le_refl _)]
  rw [replaceVar, splitOnce_none_of_not_occurs [':', '-'] name.data (by simp) hcd]
  rw [mk_data]
  rfl

theorem expand_var_default_concat (env : Dict) (name dflt rest : String)
    (hbn : rbrace ∉ name.data) (hbd : rbrace ∉ dflt.data)
    (hcd : occursIn [':', '-'] name.data = false) :
    expand_env_vars env ("$\x7b" ++ name ++ ":-" ++ dflt ++ "\x7d" ++ rest)
      = (dget env name).getD dflt ++ expand_env_vars env rest := by
  rw [expand_env_vars]
  have hbInner : rbrace ∉ (name.data ++ ':' :: '-' :: dflt.data) := by
    intro hmem
    simp only [List.mem_append, List.mem_cons] at hmem
    rcases hmem with h | h | h | h
    · exact hbn h
    · exact absurd h (by decide)
    · exact absurd h (by decide)
    · exact hbd h
  have hd : ("$\x7b" ++ name ++ ":-" ++ dflt ++ "\x7d" ++ rest).data
      = '$' :: lbrace :: ((name.data ++ ':' :: '-' :: dflt.data) ++ rbrace :: rest.data) := by
    rw [data_append, data_append, data_append, data_append, data_append]
    have e1 : "$\x7b".data = ['$', lbrace] := by decide
    have e2 : "\x7d".data = [rbrace] := by decide
    have e3 : ":-".data = [':', '-'] := by decide
    rw [e1, e2, e3]
    simp
  rw [hd]
  have hl : ('$' :: lbrace :: ((name.data ++ ':' :: '-' :: dflt.data) ++ rbrace :: rest.data)).length
      = (name.data.length + dflt.data.length + rest.data.length + 4) + 1 := by
    simp only [List.length_cons, List.length_append]
    omega
  rw [hl]
  rw [expandAux_dollar env (name.data.length + dflt.data.length + rest.data.length + 4)
    ((name.data ++ ':' :: '-' :: dflt.data) ++ rbrace :: rest.data)
    (name.data ++ ':' :: '-' :: dflt.data) rest.data
    (splitOnce_rbrace (name.data ++ ':' :: '-' :: dflt.data) rest.data hbInner) (by simp)]
  rw [expandAux_fuel_congr env rest.data.length rest.data (le_refl _)
    (name.data.length + dflt.data.length + rest.data.length + 4) rest.data.length
    (by omega) (le_refl _)]
  rw [replaceVar, splitOnce_colondash name.data dflt.data hcd]
  rw [mk_data, mk_data]
  rfl

theorem expand_dollar_nonbrace (env : Dict) (rest : String)
    (h : rest.data.head? ≠ some lbrace) :
    expand_env_vars env ("$" ++ rest) = "$" ++ expand_env_vars env rest := by
  rw [expand_env_vars, expand_env_vars]
  have hd : ("$" ++ rest).data = '$' :: rest.data := by
    rw [data_append]
    have e1 : "$".data = ['$'] := by decide
    rw [e1]
    simp
  rw [hd]
  have hl : ('$' :: rest.data).length = rest.data.length + 1 := by simp
  rw [hl]
  cases hr : rest.data with
  | nil =>
    rw [expandAux_dollar_nil env ([].length), expandAux_nil]
    rfl
  | cons c2 rest2 =>
    have hc2 : c2 ≠ lbrace := by
      intro e
      apply h
      rw [hr, e]
      rfl
    rw [expandAux_dollar_nonbrace env (c2 :: rest2).length c2 rest2 hc2]
    rfl

theorem expand_empty_form (env : Dict) (rest : String) :
    expand_env_vars env ("$\x7b\x7d" ++ rest) = "$\x7b\x7d" ++ expand_env_vars env rest := by
  rw [expand_env_vars, expand_env_vars]
  have hd : ("$\x7b\x7d" ++ rest).data = '$' :: lbrace :: rbrace :: rest.data := by
    rw [data_append]
    have e1 : "$\x7b\x7d".data = ['$', lbrace, rbrace] := by decide
    rw [e1]
    simp
  rw [hd]
  have hl : ('$' :: lbrace :: rbrace :: rest.data).length = (rest.data.length + 2) + 1 := by
    simp only [List.length_cons]
  rw [hl]
  have hsp : splitOnceList [rbrace] (rbrace :: rest.data) = some ([], rest.data) := by
    simp [splitOnceList, pyStartsWithL]
  rw [expandAux_dollar_empty env (rest.data.length + 2) (rbrace :: rest.data) rest.data hsp]
  rw [expandAux_cons_nondollar env (rest.data.length + 1) lbrace (rbrace :: rest.data) (by decide)]
  rw [expandAux_cons_nondollar env rest.data.length rbrace rest.data (by decide)]
  rfl

/-- Claim C5: variable expansion replaces a braced name by its mapped
value (empty string when undefined), replaces a defaulted braced form by
the mapped value when defined and by the default otherwise, and leaves
text outside these forms verbatim.  The conjuncts cover: dollar-free
strings and prefixes left verbatim (1-2); standalone forms (3-4); forms
embedded at the head of arbitrary further text, so that by induction any
mixture of text and forms is determined (5-6); a dollar not followed by
an opening brace left verbatim (7); any string without a closing brace —
such as an unclosed form — left verbatim (8); and the empty braced form
left verbatim (9). -/
theorem c5_expand_env_vars :
    ∀ (env : Dict) (name dflt s t : String),
      ((∀ c ∈ s.data, c ≠ '$') → expand_env_vars env s = s) ∧
      ((∀ c ∈ s.data, c ≠ '$') → expand_env_vars env (s ++ t) = s ++ expand_env_vars env t) ∧
      (name.data ≠ [] → rbrace ∉ name.data → occursIn [':', '-'] name.data = false →
        expand_env_vars env ("$\x7b" ++ name ++ "\x7d") = (dget env name).getD "") ∧
      (rbrace ∉ name.data → rbrace ∉ dflt.data → occursIn [':', '-'] name.data = false →
        expand_env_vars env ("$\x7b" ++ name ++ ":-" ++ dflt ++ "\x7d") = (dget env name).getD dflt) ∧
      (name.data ≠ [] → rbrace ∉ name.data → occursIn [':', '-'] name.data = false →
        expand_env_vars env ("$\x7b" ++ name ++ "\x7d" ++ t)
          = (dget env name).getD "" ++ expand_env_vars env t) ∧
      (rbrace ∉ name.data → rbrace ∉ dflt.data → occursIn [':', '-'] name.data = false →
        expand_env_vars env ("$\x7b" ++ name ++ ":-" ++ dflt ++ "\x7d" ++ t)
          = (dget env name).getD dflt ++ expand_env_vars env t) ∧
      (t.data.head? ≠ some lbrace →
        expand_env_vars env ("$" ++ t) = "$" ++ expand_env_vars env t) ∧
      (rbrace ∉ s.data → expand_env_vars env s = s) ∧
      expand_env_vars env ("$\x7b\x7d" ++ t) = "$\x7b\x7d" ++ expand_env_vars env t :=
  fun env name dflt s t =>
    ⟨expand_nodollar env s, expand_nodollar_append env s t,
     expand_var_plain env name, expand_var_default env name dflt,
     expand_var_plain_concat env name t, expand_var_default_concat env name dflt t,
     expand_dollar_nonbrace env t, expand_norbrace env s, expand_empty_form env t⟩

/-- Witness for C5 at the spec's three concrete examples, plus a form
embedded in a longer path, a bare dollar name, and an unclosed form left
verbatim. -/
theorem c5_expand_env_vars_witness :
    expand_env_vars [] "$\x7bFOO\x7d" = "" ∧
    expand_env_vars [] "$\x7bFOO:-bar\x7d" = "bar" ∧
    expand_env_vars [("FOO", "baz")] "$\x7bFOO:-bar\x7d" = "baz" ∧
    expand_env_vars [("FOO", "/data")] "$\x7bFOO\x7d/photos" = "/data/photos" ∧
    expand_env_vars [("FOO", "baz")] "$FOO" = "$FOO" ∧
    expand_env_vars [("FOO", "baz")] "$\x7bFOO" = "$\x7bFOO" := by
  refine ⟨?_, ?_, ?_, ?_, ?_, ?_⟩
  · rw [show ("$\x7bFOO\x7d" : String) = "$\x7b" ++ "FOO" ++ "\x7d" by decide]
    rw [(c5_expand_env_vars [] "FOO" "bar" "" "").2.2.1 (by decide) (by decide) (by decide)]
    decide
  · rw [show ("$\x7bFOO:-bar\x7d" : String) = "$\x7b" ++ "FOO" ++ ":-" ++ "bar" ++ "\x7d" by decide]
    rw [(c5_expand_env_vars [] "FOO" "bar" "" "").2.2.2.1 (by decide) (by decide) (by decide)]
    decide
  · rw [show ("$\x7bFOO:-bar\x7d" : String) = "$\x7b" ++ "FOO" ++ ":-" ++ "bar" ++ "\x7d" by decide]
    rw [(c5_expand_env_vars [("FOO", "baz")] "FOO" "bar" "" "").2.2.2.1
      (by decide) (by decide) (by decide)]
    decide
  · rw [show ("$\x7bFOO\x7d/photos" : String) = "$\x7b" ++ "FOO" ++ "\x7d" ++ "/photos" by decide]
    rw [(c5_expand_env_vars [("FOO", "/data")] "FOO" "bar" "" "/photos").2.2.2.2.1
      (by decide) (by decide) (by decide)]
    decide
  · exact (c5_expand_env_vars [("FOO", "baz")] "FOO" "bar" "$FOO" "").2.2.2.2.2.2.2.1 (by decide)
  · exact (c5_expand_env_vars [("FOO", "baz")] "FOO" "bar" "$\x7bFOO" "").2.2.2.2.2.2.2.1
      (by decide)

/-! ## C6: environment-file parsing -/

/-- Claim C6: loading an environment file yields exactly the key-value
pairs of its `KEY=value` lines — each stripped line that is non-blank,
does not start with `#` and contains `=` is split at the first `=` —
and on duplicate keys the last occurrence wins: lookup returns the last
parsed value for the key, and nothing when no line declares it.  The
closed conjuncts exercise comment/blank skipping, first-equals
splitting and last-wins on a sample file. -/
theorem c6_load_environment :
    (∀ (lines : List String) (k : String),
      dget (load_environment lines) k = lastVal k (lines.filterMap parseEnvLine)) ∧
    dget (load_environment ["# note", "   ", "A=1", "B=x=y", "A=2"]) "A" = some "2" ∧
    dget (load_environment ["# note", "   ", "A=1", "B=x=y", "A=2"]) "B" = some "x=y" ∧
    dget (load_environment ["# note", "   ", "A=1", "B=x=y", "A=2"]) "C" = none := by
  refine ⟨?_, by decide, by decide, by decide⟩
  intro lines k
  unfold load_environment
  rw [load_env_fold k lines []]
  cases h : lastVal k (lines.filterMap parseEnvLine) <;> simp [h, dget_nil]

/-! ## C4: path-resolution precedence -/

theorem string_mk_ne_empty (l : List Char) (h : l ≠ []) : String.mk l ≠ "" := by
  intro e
  exact h (congrArg String.data e)

theorem dotted_ne_empty (l : List Char) : (if l = [] then "." else String.mk l) ≠ "" := by
  split
  · decide
  · next h => exact string_mk_ne_empty l h

theorem normpath_ne_empty (p : String) : normpath p ≠ "" := by
  rw [normpath]
  split
  · decide
  · exact dotted_ne_empty _

theorem abspath_ne_empty (cwd p : String) : abspath cwd p ≠ "" := by
  rw [abspath]
  split
  · exact normpath_ne_empty _
  · exact normpath_ne_empty _

/-- Claim C4: when the topology declares a volume binding for the
upload-data container path `/data`, path resolution reports (the
absolute form of) that binding's host path; the `UPLOAD_LOCATION`
configuration default is consulted only when the topology lookup yields
nothing.  In the spec's end-to-end scenario — environment file
`UPLOAD_LOCATION=/data/lib`, volume `/data/lib:/data` on the main
service — the resolved upload location is `/data/lib`. -/
theorem c4_upload_location_precedence :
    ∀ (env : Dict) (compose : ComposeData) (cwd : String) (pex : String → Bool),
      (∀ h, dget (parse_docker_compose env compose) "/data" = some h →
        (get_backup_paths env compose cwd pex).upload_location = abspath cwd h) ∧
      (dget (parse_docker_compose env compose) "/data" = none →
        (get_backup_paths env compose cwd pex).upload_location
          = abspath cwd (get_env_var env "UPLOAD_LOCATION" "./library")) ∧
      (get_backup_paths (load_environment ["UPLOAD_LOCATION=/data/lib"])
          composeScenario "/srv" pex).upload_location = "/data/lib" := by
  intro env compose cwd pex
  refine ⟨?_, ?_, ?_⟩
  · intro h hh
    rw [get_backup_paths]
    simp only [hh, Option.map_some']
    rw [if_neg (abspath_ne_empty cwd h)]
  · intro hh
    rw [get_backup_paths]
    simp only [hh, Option.map_none']
  · rw [show (get_backup_paths (load_environment ["UPLOAD_LOCATION=/data/lib"])
        composeScenario "/srv" pex).upload_location
        = abspath "/srv" "/data/lib" from rfl]
    decide

/-- Witness for C4: the scenario topology binds `/data` to `/data/lib`,
and resolution reports that binding. -/
theorem c4_upload_location_precedence_witness :
    dget (parse_docker_compose envDemo composeScenario) "/data" = some "/data/lib" ∧
    (get_backup_paths envDemo composeScenario "/srv" (fun _ => false)).upload_location
      = abspath "/srv" "/data/lib" := by
  refine ⟨by decide, ?_⟩
  exact (c4_upload_location_precedence envDemo composeScenario "/srv" (fun _ => false)).1
    "/data/lib" (by decide)

/-! ## C1: dump-pipeline failure behavior -/

/-- Claim C1 (code bug): `run_command` defaults to `check=True`, so a
non-zero dump pipeline raises `CalledProcessError` inside the runner and
the `RuntimeError("Database backup failed")` branch of
`create_database_backup` is unreachable — no backup run ever surfaces
the `DatabaseBackupFailed` error (first conjunct).  At a concrete
failing run the raised error is `CalledProcessError`, and the `finally`
block still restarts the stopped services and removes the temporary
directory before the error reaches the caller (trace conjunct). -/
theorem c1_dump_failure_behavior :
    (∀ (env : Dict) (compose : ComposeData) (cwd : String) (pex : String → Bool)
       (ut : Entry) (t1 t2 t3 : String) (cp so du ro : Bool),
      isDbBackupFailedError (backupRun env compose cwd pex ut t1 t2 t3 cp so du ro).result
        = false) ∧
    (backupRun envDemo composeDemo "/srv" (fun _ => false) (Entry.dir []) "T1" "T2" "T3"
      true true false true).result = Except.error PyError.calledProcessError ∧
    (backupRun envDemo composeDemo "/srv" (fun _ => false) (Entry.dir []) "T1" "T2" "T3"
      true true false true).events
      = [BEvent.stopCmd ["immich_server", "immich_redis"], BEvent.dumpPipeline,
         BEvent.startCmd ["immich_server", "immich_redis"], BEvent.removeTempDir] := by
  refine ⟨?_, rfl, rfl⟩
  intro env compose cwd pex ut t1 t2 t3 cp so du ro
  have hnotfound : isDbBackupFailedError (Except.error (PyError.runtimeError
      "Immich containers not found. Please ensure Immich is deployed.")) = false := by decide
  have hcalled : isDbBackupFailedError (Except.error PyError.calledProcessError) = false := by
    decide
  have hok : isDbBackupFailedError (Except.ok ()) = false := by decide
  cases cp <;> cases so <;> cases du <;> cases ro <;>
    cases he : (stop_containers_of compose).isEmpty <;>
      simp [backupRun, backupFinally, he, hnotfound, hcalled, hok]

/-! ## C2: backup archive round trip -/

theorem tempDirName_starts (ts : String) :
    pyStartswith "immich_backup_" (tempDirName ts) = true := by
  rw [pyStartswith, tempDirName, data_append]
  exact pyStartsWithL_self_append _ _

theorem dbBackupName_head (ts : String) : (dbBackupName ts).data.head? = some 'i' := rfl

theorem dbBackupName_ne (ts s : String) (hs : s.data.head? ≠ some 'i') :
    (dbBackupName ts == s) = false := by
  rw [beq_eq_false_iff_ne]
  intro e
  exact hs (by rw [← e]; exact dbBackupName_head ts)

/-- Claim C2: a successfully completed backup writes an archive whose
extraction yields exactly one top-level backup directory (a directory,
and the only member matching the backup naming convention); that
directory contains the manifest, and the database-dump filename and
filesystem member name recorded in the manifest denote a file resp. a
directory actually present inside the extracted backup directory. -/
theorem backupFinally_result (cs : List String) (p : Except PyError Unit) :
    (backupFinally cs true p).2 = p := by
  by_cases h : cs.isEmpty <;> simp [backupFinally, h]

theorem c2_backup_archive_roundtrip :
    ∀ (env : Dict) (compose : ComposeData) (cwd : String) (pex : String → Bool)
      (uploadTree : Entry) (t1 t2 t3 : String),
      (backupRun env compose cwd pex uploadTree t1 t2 t3 true true true true).result
        = Except.ok () ∧
      ∃ A, (backupRun env compose cwd pex uploadTree t1 t2 t3 true true true true).archive
          = some A ∧
        ((A.map Prod.fst).filter (fun d => pyStartswith "immich_backup_" d))
          = [tempDirName t1] ∧
        isDirEntry (lookupEntry A (tempDirName t1)) = true ∧
        ∃ bd, extract_backup A = (Except.ok (tempDirName t1, bd), false) ∧
          ∃ m, lookupEntry bd "backup_manifest.json"
              = some (Entry.file (FileData.manifestJson m)) ∧
            isFileEntry (lookupEntry bd m.database_backup) = true ∧
            isDirEntry (lookupEntry bd m.filesystem_backup) = true := by
  intro env compose cwd pex ut t1 t2 t3
  refine ⟨by rw [backupRun]; simp [Bool.or_true, backupFinally_result], ?_⟩
  refine ⟨[(tempDirName t1, Entry.dir (backupDirContents env
    (get_backup_paths env compose cwd pex) ut t2 t3))],
    by rw [backupRun]; simp [Bool.or_true], ?_, ?_, ?_⟩
  · simp [tempDirName_starts t1]
  · simp [lookupEntry, List.find?, isDirEntry]
  · have hfilter : (([(tempDirName t1, Entry.dir (backupDirContents env
        (get_backup_paths env compose cwd pex) ut t2 t3))].map Prod.fst).filter
          (fun d => pyStartswith "immich_backup_" d)) = [tempDirName t1] := by
      simp [tempDirName_starts t1]
    have hmani : lookupEntry (backupDirContents env
        (get_backup_paths env compose cwd pex) ut t2 t3) "backup_manifest.json"
        = some (Entry.file (FileData.manifestJson (mkManifest env
            (get_backup_paths env compose cwd pex) t2 t3))) := by
      simp [lookupEntry, backupDirContents, List.find?,
        dbBackupName_ne t2 "backup_manifest.json" (by decide)]
    have hlook : lookupEntry [(tempDirName t1, Entry.dir (backupDirContents env
        (get_backup_paths env compose cwd pex) ut t2 t3))] (tempDirName t1)
        = some (Entry.dir (backupDirContents env
            (get_backup_paths env compose cwd pex) ut t2 t3)) := by
      simp [lookupEntry, List.find?]
    refine ⟨backupDirContents env (get_backup_paths env compose cwd pex) ut t2 t3, ?_, ?_⟩
    · rw [extract_backup]
      rw [hfilter]
      simp [hlook, hmani]
    · refine ⟨mkManifest env (get_backup_paths env compose cwd pex) t2 t3, hmani, ?_, ?_⟩
      · simp [mkManifest, lookupEntry, backupDirContents, List.find?, isFileEntry]
      · simp [mkManifest, lookupEntry, backupDirContents, List.find?, isDirEntry,
          dbBackupName_ne t2 "filesystem" (by decide)]

/-! ## C9: services paused at backup start -/

theorem dinsert_append (d : Dict) (k v : String) (h : ∀ p ∈ d, p.1 ≠ k) :
    dinsert d k v = d ++ [(k, v)] := by
  induction d with
  | nil => rfl
  | cons p d ih =>
    have hp : (p.1 == k) = false := by
      rw [beq_eq_false_iff_ne]; exact h p (List.mem_cons_self _ _)
    simp [dinsert, hp, ih (fun q hq => h q (List.mem_cons_of_mem _ hq))]

theorem foldl_dinsert_append :
    ∀ (l : List (String × String)) (d : Dict),
      ((d ++ l).map Prod.fst).Nodup →
      l.foldl (fun d p => dinsert d p.1 p.2) d = d ++ l := by
  intro l
  induction l with
  | nil => intro d _; simp
  | cons p l ih =>
    intro d hnd
    have hmem : ∀ q ∈ d, q.1 ≠ p.1 := by
      intro q hq e
      rw [List.map_append] at hnd
      have hdisj := List.disjoint_of_nodup_append hnd
      exact hdisj (List.mem_map_of_mem _ hq) (by simp [e])
    rw [List.foldl_cons, dinsert_append d p.1 p.2 hmem, Prod.mk.eta]
    rw [ih (d ++ [p]) (by simpa using hnd)]
    simp

theorem dictOf_eq_self (l : List (String × String)) (h : (l.map Prod.fst).Nodup) :
    dictOf l = l := by
  have := foldl_dinsert_append l [] (by simpa using h)
  simpa [dictOf] using this

/-- Claim C9: the containers stopped at the start of a backup are
exactly those of the topology services whose name does not contain
`database`, each under its container identity (first conjunct); a
service whose name marks the database role is never among the paused
services (second conjunct); and the only stop command a backup run ever
issues is for exactly that container list, so the database container is
left running for the dump (third conjunct). -/
theorem c9_stop_set :
    ∀ compose : ComposeData, (compose.services.map Prod.fst).Nodup →
      stop_containers_of compose
        = (compose.services.filter (fun s => !(occursIn "database".data s.1.data))).map
            (fun s => s.2.container_name.getD s.1) ∧
      (∀ s, s ∈ compose.services → occursIn "database".data s.1.data = true →
        s ∉ compose.services.filter (fun s => !(occursIn "database".data s.1.data))) ∧
      (∀ (env : Dict) (cwd : String) (pex : String → Bool) (ut : Entry) (t1 t2 t3 : String)
         (cp so du ro : Bool) (cs : List String),
        BEvent.stopCmd cs ∈ (backupRun env compose cwd pex ut t1 t2 t3 cp so du ro).events →
        cs = stop_containers_of compose) := by
  intro compose hnd
  refine ⟨?_, ?_, ?_⟩
  · have hnames : get_container_names compose
        = compose.services.map (fun s => (s.1, s.2.container_name.getD s.1)) := by
      rw [get_container_names]
      apply dictOf_eq_self
      rw [List.map_map]
      exact hnd
    rw [stop_containers_of, hnames, List.filter_map, List.map_map]
    rfl
  · intro s _ hdb hmem
    have h2 := (List.mem_filter.mp hmem).2
    rw [hdb] at h2
    simp at h2
  · intro env cwd pex ut t1 t2 t3 cp so du ro cs hmem
    cases cp <;> cases so <;> cases du <;> cases ro <;>
      cases he : (stop_containers_of compose).isEmpty <;>
        simp_all [backupRun, backupFinally, he]

/-- Witness for C9 at a concrete three-service topology. -/
theorem c9_stop_set_witness :
    stop_containers_of composeDemo
      = (composeDemo.services.filter (fun s => !(occursIn "database".data s.1.data))).map
          (fun s => s.2.container_name.getD s.1) :=
  (c9_stop_set composeDemo (by decide)).1

/-! ## C7: missing archived upload subtree -/

/-- Claim C7: when the archived upload-data subtree named by the
manifest (`fs_backup_dir/upload_location`) is absent from the backup
directory, the filesystem-restore step fails with the
`FilesystemBackupMissing` error (a `FileNotFoundError`), and the host
upload tree is returned unchanged: the absence check happens before any
removal. -/
theorem c7_filesystem_backup_missing :
    ∀ (bd : List (String × Entry)) (host : Option Entry) (m : Manifest),
      readManifest bd = some m →
      uploadBackupOf bd m = none →
      restore_filesystem_model bd host
        = (host, Except.error (PyError.fileNotFoundError "Filesystem backup not found")) := by
  intro bd host m hm hub
  simp [restore_filesystem_model, hm, hub]

/-- Witness for C7: a backup directory with a manifest but no
`filesystem` member leaves the host tree untouched and fails. -/
theorem c7_filesystem_backup_missing_witness :
    readManifest bdNoFs = some manifestDemo ∧
    uploadBackupOf bdNoFs manifestDemo = none ∧
    restore_filesystem_model bdNoFs (some (Entry.dir []))
      = (some (Entry.dir []),
         Except.error (PyError.fileNotFoundError "Filesystem backup not found")) :=
  ⟨rfl, rfl, c7_filesystem_backup_missing bdNoFs (some (Entry.dir [])) manifestDemo rfl rfl⟩

/-! ## C3: restore input validation -/

/-- Claim C3: restore validation.  (a) An archive whose extracted
listing has no top-level `immich_backup_*` member fails with the
`InvalidArchive` RuntimeError (`no backup directory found`) and removes
the extraction directory.  (b) An archive whose located backup
directory has no manifest fails with the `InvalidArchive` RuntimeError
(`manifest file not found`) and removes the extraction directory.
(c) A directory without a manifest fails with the `InvalidBackup`
FileNotFoundError.  In each case the trace contains no database or
filesystem restore step and the host tree is unchanged. -/
theorem c3_restore_validation :
    ∀ (ctx : RestoreCtx) (cOk sOk dOk : Bool) (host : Option Entry),
      (ctx.isFile = true → pyEndswith ".tar.gz" ctx.locName = true →
        ((ctx.extracted.map Prod.fst).filter (fun d => pyStartswith "immich_backup_" d)) = [] →
        restoreRun ctx cOk sOk dOk host
          = { events := [REvent.extractArchive], host := host, extractDirRemoved := true,
              result := Except.error (PyError.runtimeError
                "Invalid backup archive: no backup directory found") }) ∧
      (∀ (d : String) (rest : List String),
        ctx.isFile = true → pyEndswith ".tar.gz" ctx.locName = true →
        ((ctx.extracted.map Prod.fst).filter (fun d => pyStartswith "immich_backup_" d))
          = d :: rest →
        hasManifestDir ctx.extracted d = false →
        restoreRun ctx cOk sOk dOk host
          = { events := [REvent.extractArchive], host := host, extractDirRemoved := true,
              result := Except.error (PyError.runtimeError
                "Invalid backup archive: manifest file not found") }) ∧
      (ctx.isFile = false → ctx.isDir = true →
        (lookupEntry ctx.dirContents "backup_manifest.json").isSome = false →
        restoreRun ctx cOk sOk dOk host
          = { events := [], host := host, extractDirRemoved := false,
              result := Except.error (PyError.fileNotFoundError
                "Invalid backup: manifest file not found") }) := by
  intro ctx cOk sOk dOk host
  refine ⟨?_, ?_, ?_⟩
  · intro h1 h2 h3
    simp [restoreRun, extract_backup, h1, h2, h3]
  · intro d rest h1 h2 h3 h4
    rw [hasManifestDir] at h4
    cases hl : lookupEntry ctx.extracted d with
    | none => simp [restoreRun, extract_backup, h1, h2, h3, hl]
    | some e =>
      cases e with
      | file fd => simp [restoreRun, extract_backup, h1, h2, h3, hl]
      | dir es =>
        rw [hl] at h4
        simp only at h4
        simp [restoreRun, extract_backup, h1, h2, h3, hl, h4]
  · intro h1 h2 h3
    simp [restoreRun, h1, h2, h3]

/-- Witness for C3 at three concrete invalid inputs. -/
theorem c3_restore_validation_witness :
    restoreRun ctxNoDir true true true none
      = { events := [REvent.extractArchive], host := none, extractDirRemoved := true,
          result := Except.error (PyError.runtimeError
            "Invalid backup archive: no backup directory found") } ∧
    restoreRun ctxNoManifest true true true none
      = { events := [REvent.extractArchive], host := none, extractDirRemoved := true,
          result := Except.error (PyError.runtimeError
            "Invalid backup archive: manifest file not found") } ∧
    restoreRun ctxDirNoManifest true true true none
      = { events := [], host := none, extractDirRemoved := false,
          result := Except.error (PyError.fileNotFoundError
            "Invalid backup: manifest file not found") } := by
  refine ⟨?_, ?_, ?_⟩
  · exact (c3_restore_validation ctxNoDir true true true none).1 rfl (by decide) (by decide)
  · exact (c3_restore_validation ctxNoManifest true true true none).2.1
      "immich_backup_20240101_000000" [] rfl (by decide) (by decide) (by decide)
  · exact (c3_restore_validation ctxDirNoManifest true true true none).2.2 rfl rfl (by decide)

/-! ## C10: regular file that is not a tar.gz archive -/

/-- Claim C10: a restore location naming an existing regular file whose
name does not end in `.tar.gz` is rejected with the
`Backup location not found or invalid` FileNotFoundError even though
the file exists; no extraction and no restore step is attempted (empty
trace, host unchanged, no extraction directory involved).  Only paths
ending in `.tar.gz` reach the archive branch. -/
theorem c10_restore_non_archive_file :
    ∀ (ctx : RestoreCtx) (cOk sOk dOk : Bool) (host : Option Entry),
      ctx.isFile = true →
      pyEndswith ".tar.gz" ctx.locName = false →
      ctx.isDir = false →
      restoreRun ctx cOk sOk dOk host
        = { events := [], host := host, extractDirRemoved := false,
            result := Except.error (PyError.fileNotFoundError
              ("Backup location not found or invalid: " ++ ctx.locName)) } := by
  intro ctx cOk sOk dOk host h1 h2 h3
  simp [restoreRun, h1, h2, h3]

/-- Witness for C10: an existing `.txt` file is rejected untouched. -/
theorem c10_restore_non_archive_file_witness :
    restoreRun ctxPlainFile true true true none
      = { events := [], host := none, extractDirRemoved := false,
          result := Except.error (PyError.fileNotFoundError
            ("Backup location not found or invalid: " ++ "backup.txt")) } :=
  c10_restore_non_archive_file ctxPlainFile true true true none rfl (by decide) rfl

/-! ## C8: health-probe retries -/

theorem countAtt_pingLoop_le (probe : Nat → ProbeResult) :
    ∀ (fuel a : Nat), countAtt (pingLoop probe a fuel).1 ≤ fuel := by
  intro fuel
  induction fuel with
  | zero => intro a; simp [pingLoop, countAtt]
  | succ f ih =>
    intro a
    simp only [pingLoop]
    by_cases h200 : probe a = ProbeResult.status 200
    · simp [h200, countAtt]
    · rw [if_neg h200]
      by_cases hf : f = 0
      · simp [hf, countAtt]
      · rw [if_neg hf]
        simp only [countAtt, List.countP_cons]
        have := ih (a + 1)
        simp only [countAtt] at this
        simp
        omega

theorem pingLoop_first_success (probe : Nat → ProbeResult) :
    ∀ (n a fuel : Nat), n < fuel →
      probe (a + n) = ProbeResult.status 200 →
      (∀ j, j < n → probe (a + j) ≠ ProbeResult.status 200) →
      pingLoop probe a fuel = (pingTraceAux a (n + 1), true) := by
  intro n
  induction n with
  | zero =>
    intro a fuel hf h200 _
    rcases fuel with _ | f
    · omega
    · rw [Nat.add_zero] at h200
      simp [pingLoop, h200, pingTraceAux]
  | succ n ih =>
    intro a fuel hf h200 hprev
    rcases fuel with _ | f
    · omega
    · have ha : probe a ≠ ProbeResult.status 200 := by
        have := hprev 0 (Nat.succ_pos n)
        simpa using this
      have hf0 : f ≠ 0 := by omega
      simp only [pingLoop]
      rw [if_neg ha, if_neg hf0]
      have hrec := ih (a + 1) f (by omega)
        (by
          have e : a + 1 + n = a + (n + 1) := by omega
          rw [e]; exact h200)
        (fun j hj => by
          have e : a + 1 + j = a + (j + 1) := by omega
          rw [e]; exact hprev (j + 1) (by omega))
      rw [hrec]
      rfl

theorem pingLoop_all_fail (probe : Nat → ProbeResult) :
    ∀ (fuel a : Nat), 1 ≤ fuel →
      (∀ j, j < fuel → probe (a + j) ≠ ProbeResult.status 200) →
      pingLoop probe a fuel = (pingTraceAux a fuel, false) := by
  intro fuel
  induction fuel with
  | zero => intro a h; omega
  | succ f ih =>
    intro a _ hfail
    have ha : probe a ≠ ProbeResult.status 200 := by
      have := hfail 0 (Nat.succ_pos f)
      simpa using this
    simp only [pingLoop]
    rw [if_neg ha]
    by_cases hf : f = 0
    · subst hf
      simp [pingTraceAux]
    · rw [if_neg hf]
      have hrec := ih (a + 1) (by omega) (fun j hj => by
        have e : a + 1 + j = a + (j + 1) := by omega
        rw [e]; exact hfail (j + 1) (by omega))
      rw [hrec]
      rcases f with _ | f2
      · exact absurd rfl hf
      · rfl

/-- Claim C8: the HTTP ping is attempted at most six times with a
ten-second sleep between consecutive attempts (visible in the trace);
the probe stops retrying and succeeds at the first attempt returning
HTTP 200 — in particular, failures (non-200 statuses or network errors)
on the first attempts followed by a 200 at attempt `k ≤ 6` give success
after exactly `k` attempts; exhausting all six attempts yields failure
without raising; and when the `requests` import fails the probe is
skipped entirely.  The loop is a total function of the probe oracle, so
no network or import failure ever propagates to the caller. -/
theorem c8_health_probe_retries :
    ∀ probe : Nat → ProbeResult,
      countAtt (test_immich_health true probe).1 ≤ 6 ∧
      (∀ k, 1 ≤ k → k ≤ 6 → probe k = ProbeResult.status 200 →
        (∀ j, j < k → 1 ≤ j → probe j ≠ ProbeResult.status 200) →
        test_immich_health true probe = (pingTraceAux 1 k, true)) ∧
      ((∀ j, j < 7 → 1 ≤ j → probe j ≠ ProbeResult.status 200) →
        test_immich_health true probe = (pingTraceAux 1 6, false)) ∧
      test_immich_health false probe = ([], false) := by
  intro probe
  refine ⟨?_, ?_, ?_, rfl⟩
  · exact countAtt_pingLoop_le probe 6 1
  · intro k h1 h6 h200 hprev
    show pingLoop probe 1 6 = _
    have hmain := pingLoop_first_success probe (k - 1) 1 6 (by omega)
      (by
        have e : 1 + (k - 1) = k := by omega
        rw [e]; exact h200)
      (fun j hj => by
        exact hprev (1 + j) (by omega) (by omega))
    have ek : k - 1 + 1 = k := by omega
    rw [ek] at hmain
    exact hmain
  · intro hfail
    show pingLoop probe 1 6 = _
    exact pingLoop_all_fail probe 6 1 (by omega) (fun j hj => by
      exact hfail (1 + j) (by omega) (by omega))

/-- Witness for C8: network errors on attempts one to five, then 200 on
the sixth — the probe succeeds after exactly six attempts. -/
theorem c8_health_probe_retries_witness :
    test_immich_health true probeSix = (pingTraceAux 1 6, true) :=
  (c8_health_probe_retries probeSix).2.1 6 (by decide) (by decide) (by decide) (by decide)

end Immich
